import Mathlib

/-!
Verification of the load-driving core of the bombardier repository.

The Go sources are shallowly embedded: Go `uint64` counters become `Nat`
with an explicit `% 2 ^ 64` where the code performs a wrapping atomic
increment, `time.Duration` becomes `Int` (nanoseconds), Go `error`
results become `Option String`, and `float64` arithmetic in
`completed()` is modelled by exact rational arithmetic.  The channel
`doneChan` together with `closeOnce : sync.Once` is modelled by the
boolean fields `doneChanClosed` / `onceUsed` plus two ghost fields:
`closeCount` counts how many times `close(doneChan)` actually executed
and `panicked` records whether `close` was ever invoked on an
already-closed channel (which panics in Go).
-/

namespace Bombardier

/-- Modulus of Go `uint64` arithmetic. -/
def U64 : Nat := 2 ^ 64

/-! ### Counting completion barrier (src/unnamed/part_000, lines 17-67) -/

/-- State of `countingCompletionBarrier`. -/
structure countingCompletionBarrier where
  numReqs : Nat
  reqsGrabbed : Nat
  reqsDone : Nat
  doneChanClosed : Bool
  onceUsed : Bool
  closeCount : Nat
  panicked : Bool
deriving Repr, DecidableEq

/-- Effect of Go `close(ch)`: panics if the channel is already closed. -/
def countingCompletionBarrier.closeChan (c : countingCompletionBarrier) :
    countingCompletionBarrier :=
  if c.doneChanClosed then { c with panicked := true }
  else { c with doneChanClosed := true, closeCount := c.closeCount + 1 }

/-- Effect of `c.closeOnce.Do(func() { close(c.doneChan) })`. -/
def countingCompletionBarrier.closeOnceDo (c : countingCompletionBarrier) :
    countingCompletionBarrier :=
  if c.onceUsed then c else { c.closeChan with onceUsed := true }

/-- `newCountingCompletionBarrier` (part_000, lines 23-28). -/
def newCountingCompletionBarrier (numReqs : Nat) : countingCompletionBarrier :=
  { numReqs := numReqs, reqsGrabbed := 0, reqsDone := 0,
    doneChanClosed := false, onceUsed := false, closeCount := 0,
    panicked := false }

/-- `(*countingCompletionBarrier).tryGrabWork` (part_000, lines 30-38):
the select takes the ready `<-c.doneChan` case when the channel is
closed, otherwise the default branch does a fetch-add and compares the
post-increment value with `numReqs`. -/
def countingCompletionBarrier.tryGrabWork (c : countingCompletionBarrier) :
    Bool × countingCompletionBarrier :=
  if c.doneChanClosed then (false, c)
  else
    let reqsDone := (c.reqsGrabbed + 1) % U64
    (decide (reqsDone ≤ c.numReqs), { c with reqsGrabbed := reqsDone })

/-- `(*countingCompletionBarrier).jobDone` (part_000, lines 40-47). -/
def countingCompletionBarrier.jobDone (c : countingCompletionBarrier) :
    countingCompletionBarrier :=
  let reqsDone := (c.reqsDone + 1) % U64
  let c1 := { c with reqsDone := reqsDone }
  if reqsDone = c1.numReqs then c1.closeOnceDo else c1

/-- `(*countingCompletionBarrier).Cancel` (part_000, lines 53-57). -/
def countingCompletionBarrier.Cancel (c : countingCompletionBarrier) :
    countingCompletionBarrier :=
  c.closeOnceDo

/-- `(*countingCompletionBarrier).completed` (part_000, lines 59-67);
`float64` division is modelled by exact rational division. -/
def countingCompletionBarrier.completed (c : countingCompletionBarrier) : ℚ :=
  if c.doneChanClosed then 1
  else (c.reqsDone : ℚ) / (c.numReqs : ℚ)

/-! ### Timed completion barrier (src/unnamed/part_000, lines 69-124) -/

/-- State of `timedCompletionBarrier`.  The start instant is kept
implicit: time-dependent operations take the elapsed nanoseconds
(`time.Since(c.start)`) as an explicit argument. -/
structure timedCompletionBarrier where
  durationNs : Int
  doneChanClosed : Bool
  onceUsed : Bool
  closeCount : Nat
  panicked : Bool
deriving Repr, DecidableEq

def timedCompletionBarrier.closeChan (t : timedCompletionBarrier) :
    timedCompletionBarrier :=
  if t.doneChanClosed then { t with panicked := true }
  else { t with doneChanClosed := true, closeCount := t.closeCount + 1 }

def timedCompletionBarrier.closeOnceDo (t : timedCompletionBarrier) :
    timedCompletionBarrier :=
  if t.onceUsed then t else { t.closeChan with onceUsed := true }

/-- `newTimedCompletionBarrier` (part_000, lines 76-92), state part only:
the deadline task that fires at `start + duration` is modelled as the
separate operation `deadlineFire`. -/
def newTimedCompletionBarrier (durationNs : Int) : timedCompletionBarrier :=
  { durationNs := durationNs, doneChanClosed := false, onceUsed := false,
    closeCount := 0, panicked := false }

/-- `(*timedCompletionBarrier).tryGrabWork` (part_000, lines 94-101). -/
def timedCompletionBarrier.tryGrabWork (t : timedCompletionBarrier) : Bool :=
  !t.doneChanClosed

/-- `(*timedCompletionBarrier).jobDone` (part_000, lines 103-104): empty body. -/
def timedCompletionBarrier.jobDone (t : timedCompletionBarrier) :
    timedCompletionBarrier :=
  t

/-- `(*timedCompletionBarrier).Cancel` (part_000, lines 110-114). -/
def timedCompletionBarrier.Cancel (t : timedCompletionBarrier) :
    timedCompletionBarrier :=
  t.closeOnceDo

/-- The one-shot `time.AfterFunc(duration, ...)` body (part_000, lines 84-90). -/
def timedCompletionBarrier.deadlineFire (t : timedCompletionBarrier) :
    timedCompletionBarrier :=
  t.closeOnceDo

/-- `(*timedCompletionBarrier).completed` (part_000, lines 116-124);
`elapsedNs` is the value of `time.Since(c.start)` at the call. -/
def timedCompletionBarrier.completed (t : timedCompletionBarrier)
    (elapsedNs : Int) : ℚ :=
  if t.doneChanClosed then 1
  else (elapsedNs : ℚ) / (t.durationNs : ℚ)

/-! ### Byte-counting connection (src/unnamed/part_001, lines 707-736) -/

/-- `(*countingConn).Read` effect on the shared `bytesRead` total, given
the result `(n, err)` of the delegated `cc.Conn.Read`: the bytes are
added only when `err == nil`. -/
def countingConnRead (n : Nat) (err : Option String) (bytesRead : Int) : Int :=
  if err.isNone then bytesRead + (n : Int) else bytesRead

/-- `(*countingConn).Write` effect on the shared `bytesWritten` total. -/
def countingConnWrite (n : Nat) (err : Option String) (bytesWritten : Int) : Int :=
  if err.isNone then bytesWritten + (n : Int) else bytesWritten

/-! ### Statistics pipeline (src/lib/config.go, lines 401-432) -/

/-- Result of one `client.do()` call: `(code int, msTaken uint64, err error)`. -/
structure DoResult where
  code : Int
  msTaken : Nat
  err : Option String

/-- The statistics-carrying fields of `Bombardier` that
`performSingleRequest`/`writeStatistics` mutate. -/
structure bombardierStats where
  req1xx : Nat
  req2xx : Nat
  req3xx : Nat
  req4xx : Nat
  req5xx : Nat
  others : Nat
  latencies : Multiset Nat
  reqs : Int
  errors : Multiset String

/-- `(*Bombardier).writeStatistics` (config.go, lines 401-424).  In Go
`switch code / 100` uses truncated integer division, `Int.tdiv` here;
the chosen counter is bumped by the wrapping `atomic.AddUint64`. -/
def writeStatistics (code : Int) (msTaken : Nat) (s : bombardierStats) :
    bombardierStats :=
  let s1 := { s with latencies := msTaken ::ₘ s.latencies, reqs := s.reqs + 1 }
  let q := Int.tdiv code 100
  if q = 1 then { s1 with req1xx := (s1.req1xx + 1) % U64 }
  else if q = 2 then { s1 with req2xx := (s1.req2xx + 1) % U64 }
  else if q = 3 then { s1 with req3xx := (s1.req3xx + 1) % U64 }
  else if q = 4 then { s1 with req4xx := (s1.req4xx + 1) % U64 }
  else if q = 5 then { s1 with req5xx := (s1.req5xx + 1) % U64 }
  else { s1 with others := (s1.others + 1) % U64 }

/-- `(*Bombardier).performSingleRequest` (config.go, lines 426-432),
with the `client.do()` outcome supplied as data. -/
def performSingleRequest (r : DoResult) (s : bombardierStats) :
    bombardierStats :=
  let s1 := match r.err with
    | some e => { s with errors := e ::ₘ s.errors }
    | none => s
  writeStatistics r.code r.msTaken s1

/-- The six status-class counters as a single indexed family
(1xx, 2xx, 3xx, 4xx, 5xx, others). -/
def statusCounters (s : bombardierStats) : Fin 6 → Nat
  | ⟨0, _⟩ => s.req1xx
  | ⟨1, _⟩ => s.req2xx
  | ⟨2, _⟩ => s.req3xx
  | ⟨3, _⟩ => s.req4xx
  | ⟨4, _⟩ => s.req5xx
  | ⟨5, _⟩ => s.others
  | ⟨n + 6, h⟩ => absurd h (by omega)

/-- Status-class selection as the spec words it: the bucket is chosen by
`code / 100`, quotients 1-5 map to the class counters and every other
quotient (including 0) maps to `others`. -/
def specStatusBucket (code : Int) : Fin 6 :=
  let q := Int.tdiv code 100
  if q = 1 then ⟨0, by omega⟩
  else if q = 2 then ⟨1, by omega⟩
  else if q = 3 then ⟨2, by omega⟩
  else if q = 4 then ⟨3, by omega⟩
  else if q = 5 then ⟨4, by omega⟩
  else ⟨5, by omega⟩

/-! ### Header list (src/lib/headers.go) -/

/-- `header` (headers.go, lines 8-10); Go strings are lists of characters. -/
structure header where
  key : List Char
  value : List Char
deriving Repr, DecidableEq

/-- `HeadersList` (headers.go, line 12). -/
abbrev HeadersList : Type := List header

inductive HeaderError where
  | errInvalidHeaderFormat
deriving Repr, DecidableEq

/-- Go `strings.SplitN(s, ":", 2)`: one slice when `s` has no colon,
otherwise the text before the first colon and everything after it. -/
def splitN2Colon (s : List Char) : List (List Char) :=
  go [] s
where
  go (acc : List Char) : List Char → List (List Char)
    | [] => [acc.reverse]
    | c :: rest =>
      if c = ':' then [acc.reverse, rest] else go (c :: acc) rest

/-- Go `strings.Trim(s, " ")`: removes leading and trailing spaces. -/
def trimSpaces (s : List Char) : List Char :=
  (((s.dropWhile (fun c => c = ' ')).reverse.dropWhile (fun c => c = ' ')).reverse)

/-- `(*HeadersList).Set` (headers.go, lines 22-31). -/
def HeadersList.Set (h : HeadersList) (value : List Char) :
    Except HeaderError HeadersList :=
  match splitN2Colon value with
  | [k, v] => .ok ((h : List header) ++ [{ key := k, value := trimSpaces v }])
  | _ => .error .errInvalidHeaderFormat

/-! ### Configuration validation (src/lib/config.go, lines 11-159) -/

inductive testTyp where
  | none
  | timed
  | counted
deriving Repr, DecidableEq

/-- The `Config` fields consulted by `checkArgs` and the barrier
construction in `NewBombardier`.  Durations are in nanoseconds. -/
structure Config where
  numConns : Nat
  numReqs : Option Nat
  durationNs : Option Int
  url : String
  method : String
  certPath : String
  keyPath : String
  body : String
  bodyFilePath : String
  timeoutNs : Int
  rate : Option Nat
deriving Repr, DecidableEq

/-- Configuration errors returned by the `check*` functions; the
sentinel `err*` values are defined outside src/, so they are one
constructor each here. -/
inductive ConfigError where
  | urlParseError
  | errInvalidURL
  | errZeroRate
  | errInvalidNumberOfConns
  | errInvalidNumberOfRequests
  | errInvalidTestDuration
  | errNegativeTimeout
  | invalidHTTPMethodError (method : String)
  | errBodyNotAllowed
  | errBodyProvidedTwice
  | errNoPathToKey
  | errNoPathToCert
deriving Repr, DecidableEq

/-- Modelled from the spec: `defaultTestDuration` is defined in a file of
this repository that is not under src/.  The claims settled here depend
only on the identity of this constant, not on its value (10s matches the
upstream default). -/
def defaultTestDuration : Int := 10 * 1000000000

/-- `(*Config).testType` (config.go, lines 76-84). -/
def Config.testType (c : Config) : testTyp :=
  if c.numReqs.isSome then .counted
  else if c.durationNs.isSome then .timed
  else .none

/-- `(*Config).checkOrSetDefaultTestType` (config.go, lines 70-74). -/
def Config.checkOrSetDefaultTestType (c : Config) : Config :=
  if c.testType = .none then { c with durationNs := some defaultTestDuration }
  else c

/-- Result of the external `urlx.Parse`: scheme, host, and the
re-serialised URL string. -/
structure UrlParts where
  scheme : String
  host : String
  full : String

/-- `(*Config).checkURL` (config.go, lines 86-96), parameterised by the
external parser `urlx.Parse` (`none` models a parse error). -/
def Config.checkURL (parse : String → Option UrlParts) (c : Config) :
    Except ConfigError Config :=
  match parse c.url with
  | Option.none => .error .urlParseError
  | some u =>
    if u.host = "" || (u.scheme ≠ "http" && u.scheme ≠ "https") then
      .error .errInvalidURL
    else
      .ok { c with url := u.full }

/-- `(*Config).checkRate` (config.go, lines 98-103). -/
def Config.checkRate (c : Config) : Except ConfigError Unit :=
  match c.rate with
  | some r => if r < 1 then .error .errZeroRate else .ok ()
  | Option.none => .ok ()

/-- `(*Config).checkRunParameters` (config.go, lines 105-116); the
dereferences `*c.NumReqs` / `*c.Duration` happen only under the
matching test-type guard, so `getD` is only evaluated on `some`. -/
def Config.checkRunParameters (c : Config) : Except ConfigError Unit :=
  if c.numConns < 1 then .error .errInvalidNumberOfConns
  else if c.testType = .counted && c.numReqs.getD 0 < 1 then
    .error .errInvalidNumberOfRequests
  else if c.testType = .timed && c.durationNs.getD 0 < 1000000000 then
    .error .errInvalidTestDuration
  else .ok ()

/-- `(*Config).checkTimeoutDuration` (config.go, lines 118-123). -/
def Config.checkTimeoutDuration (c : Config) : Except ConfigError Unit :=
  if c.timeoutNs < 0 then .error .errNegativeTimeout else .ok ()

/-- `(*Config).checkHTTPParameters` (config.go, lines 125-136),
parameterised by `allowedHTTPMethod` and `canHaveBody`, which search
sorted string lists defined outside src/. -/
def Config.checkHTTPParameters (allowedHTTPMethod canHaveBody : String → Bool)
    (c : Config) : Except ConfigError Unit :=
  if !allowedHTTPMethod c.method then
    .error (.invalidHTTPMethodError c.method)
  else if !canHaveBody c.method && (c.body ≠ "" || c.bodyFilePath ≠ "") then
    .error .errBodyNotAllowed
  else if c.body ≠ "" && c.bodyFilePath ≠ "" then
    .error .errBodyProvidedTwice
  else .ok ()

/-- `(*Config).checkCertPaths` (config.go, lines 138-145). -/
def Config.checkCertPaths (c : Config) : Except ConfigError Unit :=
  if c.certPath ≠ "" && c.keyPath = "" then .error .errNoPathToKey
  else if c.certPath = "" && c.keyPath ≠ "" then .error .errNoPathToCert
  else .ok ()

/-- `(*Config).checkArgs` (config.go, lines 49-68): sets the default
test type, then runs the checks in order, returning the first error.
Only `checkURL` rewrites the config (its `Url` field). -/
def Config.checkArgs (parse : String → Option UrlParts)
    (allowedHTTPMethod canHaveBody : String → Bool) (c : Config) :
    Except ConfigError Config :=
  let c0 := c.checkOrSetDefaultTestType
  match c0.checkURL parse with
  | .error e => .error e
  | .ok c1 =>
    match c1.checkRate with
    | .error e => .error e
    | .ok _ =>
      match c1.checkRunParameters with
      | .error e => .error e
      | .ok _ =>
        match c1.checkTimeoutDuration with
        | .error e => .error e
        | .ok _ =>
          match c1.checkHTTPParameters allowedHTTPMethod canHaveBody with
          | .error e => .error e
          | .ok _ =>
            match c1.checkCertPaths with
            | .error e => .error e
            | .ok _ => .ok c1

/-- The completion barrier chosen by `NewBombardier` (config.go,
lines 257-261). -/
inductive barrierKind where
  | counting (numReqs : Nat)
  | timed (durationNs : Int)
deriving Repr, DecidableEq

/-- Barrier construction in `NewBombardier`: counted runs get
`newCountingCompletionBarrier(*c.NumReqs)`, every other run gets
`newTimedCompletionBarrier(*c.Duration)`; `none` models the nil
dereference that validation rules out. -/
def newBombardierBarrier (c : Config) : Option barrierKind :=
  if c.testType = .counted then c.numReqs.map barrierKind.counting
  else c.durationNs.map barrierKind.timed

/-- The prefix of `NewBombardier` (config.go, lines 239-261) relevant to
configuration claims: validate, then choose the barrier.  Workers are
only ever spawned later, in `Bombard`. -/
def NewBombardierModel (parse : String → Option UrlParts)
    (allowedHTTPMethod canHaveBody : String → Bool) (c : Config) :
    Except ConfigError (Config × Option barrierKind) :=
  match c.checkArgs parse allowedHTTPMethod canHaveBody with
  | .error e => .error e
  | .ok c1 => .ok (c1, newBombardierBarrier c1)

/-! ### Barrier call sequences (for the once/close safety claims) -/

/-- Calls that reach the close logic of the counted barrier: `jobDone` from a
worker and `Cancel` from any context (e.g. the signal handler in main). -/
inductive countedOp where
  | jobDone
  | cancel
deriving Repr, DecidableEq

def countedStep (c : countingCompletionBarrier) : countedOp →
    countingCompletionBarrier
  | .jobDone => c.jobDone
  | .cancel => c.Cancel

def countedRun (c : countingCompletionBarrier) (ops : List countedOp) :
    countingCompletionBarrier :=
  ops.foldl countedStep c

/-- Calls that reach the close logic of the timed barrier: the no-op
`jobDone`, `Cancel`, and the deadline timer firing. -/
inductive timedOp where
  | jobDone
  | cancel
  | deadline
deriving Repr, DecidableEq

def timedStep (t : timedCompletionBarrier) : timedOp →
    timedCompletionBarrier
  | .jobDone => t.jobDone
  | .cancel => t.Cancel
  | .deadline => t.deadlineFire

def timedRun (t : timedCompletionBarrier) (ops : List timedOp) :
    timedCompletionBarrier :=
  ops.foldl timedStep t

/-! ### Worker pool semantics (config.go, lines 434-443 and 503-522)

Each of the `NumConns` goroutines runs `worker()`:
`for tryGrabWork() { if pace() == brk { break }; performSingleRequest();
jobDone() }`.  A worker is `atLoop` when about to call `tryGrabWork`,
`atWork` after a successful grab (its `pace`, `client.do` and `jobDone`
still pending), and `exited` after its loop ended.  Scheduler events
interleave the atomic steps of the workers arbitrarily. -/

inductive WSt where
  | atLoop
  | atWork
  | exited
deriving Repr, DecidableEq

/-- Pool state: the shared barrier plus the position of each worker, with two
ghost counters: `issued` counts `tryGrabWork` calls that returned true,
`doCalls` counts `client.do` invocations. -/
structure Pool where
  bar : countingCompletionBarrier
  ws : List WSt
  issued : Nat
  doCalls : Nat
deriving Repr, DecidableEq

/-- Scheduler events: `grab i` runs the `tryGrabWork` call of worker `i`
(atomic fetch-add); `work i` runs its `pace` (returning CONTINUE),
`client.do` and `jobDone`; `brk i` runs its `pace` returning BREAK (the
worker leaves the loop without issuing a request); `cancel` is
`Barrier.Cancel()` from the signal handler. -/
inductive Ev where
  | grab (i : Nat)
  | work (i : Nat)
  | brk (i : Nat)
  | cancel
deriving Repr, DecidableEq

def countWSt (s : WSt) (ws : List WSt) : Nat :=
  ws.countP (fun w => decide (w = s))

def pstep (p : Pool) : Ev → Pool
  | .cancel => { p with bar := p.bar.Cancel }
  | .grab i =>
    match p.ws[i]? with
    | some WSt.atLoop =>
      let r := p.bar.tryGrabWork
      if r.1 then
        { p with bar := r.2, ws := p.ws.set i .atWork, issued := p.issued + 1 }
      else
        { p with bar := r.2, ws := p.ws.set i .exited }
    | _ => p
  | .work i =>
    match p.ws[i]? with
    | some WSt.atWork =>
      { p with bar := p.bar.jobDone, ws := p.ws.set i .atLoop,
               doCalls := p.doCalls + 1 }
    | _ => p
  | .brk i =>
    match p.ws[i]? with
    | some WSt.atWork => { p with ws := p.ws.set i .exited }
    | _ => p

def prun (p : Pool) (evs : List Ev) : Pool :=
  evs.foldl pstep p

/-- Initial pool for a counted run with `num_reqs = K` and `N = NumConns`
workers. -/
def initPool (K N : Nat) : Pool :=
  { bar := newCountingCompletionBarrier K,
    ws := List.replicate N WSt.atLoop, issued := 0, doCalls := 0 }

def Ev.isCancel : Ev → Bool
  | .cancel => true
  | _ => false

def Ev.isBrk : Ev → Bool
  | .brk _ => true
  | _ => false

/-- The loop of every worker has terminated. -/
def allExited (p : Pool) : Prop :=
  ∀ w ∈ p.ws, w = WSt.exited

instance allExitedDecidable (p : Pool) : Decidable (allExited p) :=
  List.decidableBAll _ p.ws

/-! ### Invariants used in the proofs -/

/-- Coupling between `closeOnce` and the channel: the once guard has
fired exactly when the channel is closed, the channel was actually
closed at most once, and no double close ever happened.  Holds in every
state reachable from a fresh barrier. -/
def COnceInv (c : countingCompletionBarrier) : Prop :=
  c.onceUsed = c.doneChanClosed ∧
  c.closeCount = (if c.doneChanClosed then 1 else 0) ∧
  c.panicked = false

/-- The timed-barrier analogue of `COnceInv`. -/
def TOnceInv (t : timedCompletionBarrier) : Prop :=
  t.onceUsed = t.doneChanClosed ∧
  t.closeCount = (if t.doneChanClosed then 1 else 0) ∧
  t.panicked = false

/-- Inductive invariant of the worker pool that holds along every
schedule, cancellations and limiter breaks included. -/
structure PoolInv (K N : Nat) (p : Pool) : Prop where
  hlen : p.ws.length = N
  hnum : p.bar.numReqs = K
  h_ig : p.issued ≤ p.bar.reqsGrabbed
  h_iK : p.issued ≤ K
  h_gb : p.bar.reqsGrabbed ≤ p.issued + countWSt .exited p.ws

/-- Stronger inductive invariant for schedules containing neither
`cancel` nor limiter breaks. -/
structure PoolInvB (K N : Nat) (p : Pool) : Prop where
  base : PoolInv K N p
  h_da : p.bar.reqsDone + countWSt .atWork p.ws = p.issued
  h_dc : p.doCalls = p.bar.reqsDone
  h_once : p.bar.onceUsed = p.bar.doneChanClosed
  h_closed : p.bar.doneChanClosed = true → p.issued = K ∧ p.bar.reqsDone = K
  h_open : p.bar.doneChanClosed = false →
    p.issued = min p.bar.reqsGrabbed K
  h_exitg : p.bar.doneChanClosed = false → 1 ≤ countWSt .exited p.ws →
    K ≤ p.bar.reqsGrabbed

/-! ### Helper lemmas about the barrier operations -/

@[simp] lemma closeChan_numReqs (c : countingCompletionBarrier) :
    c.closeChan.numReqs = c.numReqs := by
  unfold countingCompletionBarrier.closeChan; split <;> rfl

@[simp] lemma closeChan_reqsGrabbed (c : countingCompletionBarrier) :
    c.closeChan.reqsGrabbed = c.reqsGrabbed := by
  unfold countingCompletionBarrier.closeChan; split <;> rfl

@[simp] lemma closeChan_reqsDone (c : countingCompletionBarrier) :
    c.closeChan.reqsDone = c.reqsDone := by
  unfold countingCompletionBarrier.closeChan; split <;> rfl

@[simp] lemma closeOnceDo_numReqs (c : countingCompletionBarrier) :
    c.closeOnceDo.numReqs = c.numReqs := by
  unfold countingCompletionBarrier.closeOnceDo; split <;> simp

@[simp] lemma closeOnceDo_reqsGrabbed (c : countingCompletionBarrier) :
    c.closeOnceDo.reqsGrabbed = c.reqsGrabbed := by
  unfold countingCompletionBarrier.closeOnceDo; split <;> simp

@[simp] lemma closeOnceDo_reqsDone (c : countingCompletionBarrier) :
    c.closeOnceDo.reqsDone = c.reqsDone := by
  unfold countingCompletionBarrier.closeOnceDo; split <;> simp

/-- Behaviour of the once-guarded close in any state satisfying the
once/channel coupling (which holds in every reachable state). -/
lemma closeOnceDo_spec (c : countingCompletionBarrier)
    (honce : c.onceUsed = c.doneChanClosed) :
    c.closeOnceDo.doneChanClosed = true ∧
    c.closeOnceDo.onceUsed = true ∧
    c.closeOnceDo.closeCount =
      (if c.doneChanClosed then c.closeCount else c.closeCount + 1) ∧
    c.closeOnceDo.panicked = c.panicked := by
  unfold countingCompletionBarrier.closeOnceDo
    countingCompletionBarrier.closeChan
  by_cases hdc : c.doneChanClosed <;> simp [honce, hdc]

@[simp] lemma jobDone_numReqs (c : countingCompletionBarrier) :
    c.jobDone.numReqs = c.numReqs := by
  unfold countingCompletionBarrier.jobDone; dsimp only; split <;> simp

@[simp] lemma jobDone_reqsGrabbed (c : countingCompletionBarrier) :
    c.jobDone.reqsGrabbed = c.reqsGrabbed := by
  unfold countingCompletionBarrier.jobDone; dsimp only; split <;> simp

@[simp] lemma jobDone_reqsDone (c : countingCompletionBarrier) :
    c.jobDone.reqsDone = (c.reqsDone + 1) % U64 := by
  unfold countingCompletionBarrier.jobDone; dsimp only; split <;> simp

@[simp] lemma cancel_numReqs (c : countingCompletionBarrier) :
    c.Cancel.numReqs = c.numReqs := by
  unfold countingCompletionBarrier.Cancel; simp

@[simp] lemma cancel_reqsGrabbed (c : countingCompletionBarrier) :
    c.Cancel.reqsGrabbed = c.reqsGrabbed := by
  unfold countingCompletionBarrier.Cancel; simp

@[simp] lemma cancel_reqsDone (c : countingCompletionBarrier) :
    c.Cancel.reqsDone = c.reqsDone := by
  unfold countingCompletionBarrier.Cancel; simp

/-! ### Claim theorems: single barrier operations -/

/-- Claim C2: `tryGrabWork` returns false once the done-signal is
closed; otherwise the counted barrier atomically increments the grabbed
counter (a wrapping uint64 fetch-add) and — away from the uint64 wrap
point, which no execution bounded by `numReqs + NumConns < 2^64` calls
can reach — returns true iff the pre-increment value was strictly less
than `total`; the timed barrier returns true exactly while the
done-signal is open. -/
theorem claimC2 (c : countingCompletionBarrier) (t : timedCompletionBarrier) :
    (c.doneChanClosed = true → c.tryGrabWork = (false, c)) ∧
    (c.doneChanClosed = false →
      c.tryGrabWork.2 =
        { c with reqsGrabbed := (c.reqsGrabbed + 1) % U64 } ∧
      (c.reqsGrabbed + 1 < U64 →
        (c.tryGrabWork.1 = true ↔ c.reqsGrabbed < c.numReqs))) ∧
    t.tryGrabWork = !t.doneChanClosed := by
  refine ⟨?_, ?_, rfl⟩
  · intro hdc
    unfold countingCompletionBarrier.tryGrabWork
    simp [hdc]
  · intro hdc
    unfold countingCompletionBarrier.tryGrabWork
    rw [if_neg (by simp [hdc])]
    refine ⟨rfl, fun hlt => ?_⟩
    show decide ((c.reqsGrabbed + 1) % U64 ≤ c.numReqs) = true ↔ _
    rw [Nat.mod_eq_of_lt hlt]
    simp [Nat.succ_le_iff]

/-- Claim C2 witness: with `total = 5`, `grabbed = 3` and the channel
open, `tryGrabWork` succeeds. -/
theorem claimC2_witness :
    (countingCompletionBarrier.tryGrabWork
      { numReqs := 5, reqsGrabbed := 3, reqsDone := 0,
        doneChanClosed := false, onceUsed := false, closeCount := 0,
        panicked := false }).1 = true := by
  have h := claimC2
    { numReqs := 5, reqsGrabbed := 3, reqsDone := 0,
      doneChanClosed := false, onceUsed := false, closeCount := 0,
      panicked := false }
    { durationNs := 1, doneChanClosed := false, onceUsed := false,
      closeCount := 0, panicked := false }
  exact ((h.2.1 rfl).2 (by decide)).mpr (by decide)

/-- Claim C5: on the counted barrier `jobDone` performs the wrapping
atomic increment of `done` and triggers the once-guarded close exactly
when the post-increment value equals `total` (the close actually closing
the channel iff it was still open); otherwise the channel state is
untouched.  On the timed barrier `jobDone` is a no-op. -/
theorem claimC5 (c : countingCompletionBarrier) (t : timedCompletionBarrier)
    (honce : c.onceUsed = c.doneChanClosed) :
    c.jobDone.reqsDone = (c.reqsDone + 1) % U64 ∧
    ((c.reqsDone + 1) % U64 = c.numReqs →
      c.jobDone.doneChanClosed = true ∧
      c.jobDone.closeCount =
        (if c.doneChanClosed then c.closeCount else c.closeCount + 1) ∧
      c.jobDone.panicked = c.panicked) ∧
    ((c.reqsDone + 1) % U64 ≠ c.numReqs →
      c.jobDone.doneChanClosed = c.doneChanClosed ∧
      c.jobDone.closeCount = c.closeCount ∧
      c.jobDone.onceUsed = c.onceUsed) ∧
    t.jobDone = t := by
  refine ⟨jobDone_reqsDone c, ?_, ?_, rfl⟩
  · intro heq
    have hs := closeOnceDo_spec
      { c with reqsDone := (c.reqsDone + 1) % U64 } honce
    rw [heq] at hs
    simp only [countingCompletionBarrier.jobDone, heq, if_pos]
    exact ⟨hs.1, hs.2.2.1, hs.2.2.2⟩
  · intro hne
    simp only [countingCompletionBarrier.jobDone, hne]
    exact ⟨rfl, rfl, rfl⟩

/-- Claim C5 witness: with `total = 2` and `done = 1`, a `jobDone` call
increments `done` to 2 and closes the channel exactly once. -/
theorem claimC5_witness :
    (countingCompletionBarrier.jobDone
      { numReqs := 2, reqsGrabbed := 2, reqsDone := 1,
        doneChanClosed := false, onceUsed := false, closeCount := 0,
        panicked := false }).doneChanClosed = true ∧
    (countingCompletionBarrier.jobDone
      { numReqs := 2, reqsGrabbed := 2, reqsDone := 1,
        doneChanClosed := false, onceUsed := false, closeCount := 0,
        panicked := false }).closeCount = 1 := by
  have h := claimC5
    { numReqs := 2, reqsGrabbed := 2, reqsDone := 1,
      doneChanClosed := false, onceUsed := false, closeCount := 0,
      panicked := false }
    { durationNs := 1, doneChanClosed := false, onceUsed := false,
      closeCount := 0, panicked := false }
    rfl
  have h2 := h.2.1 (by decide)
  exact ⟨h2.1, h2.2.1⟩

/-! ### Claim theorems: byte-counting connection -/

/-- Claim C7 counterexample: a `Read` reporting 5 transferred bytes
together with a non-nil error leaves `bytesRead` unchanged (100, not
105), and a `Write` of 7 bytes with an error leaves `bytesWritten`
unchanged; the claimed crediting of partial transfers does not happen. -/
theorem claimC7_counterexample :
    countingConnRead 5 (some "read: connection reset by peer") 100 = 100 ∧
    countingConnRead 5 (some "read: connection reset by peer") 100 ≠ 105 ∧
    countingConnWrite 7 (some "broken pipe") 3 = 3 ∧
    countingConnWrite 7 (some "broken pipe") 3 ≠ 10 := by
  exact ⟨rfl, by decide, rfl, by decide⟩

/-- Claim C7 amended: `countingConn.Read`/`Write` credit the returned
byte count to the shared totals only when the underlying call returned a
nil error; a positive count accompanied by a non-nil error is discarded. -/
theorem claimC7_amended (n : Nat) (e : String) (total : Int) :
    countingConnRead n (some e) total = total ∧
    countingConnWrite n (some e) total = total ∧
    countingConnRead n Option.none total = total + n ∧
    countingConnWrite n Option.none total = total + n :=
  ⟨rfl, rfl, rfl, rfl⟩

/-! ### Claim theorems: statistics pipeline -/

lemma statusCounters_errors (s : bombardierStats) (E : Multiset String)
    (i : Fin 6) :
    statusCounters { s with errors := E } i = statusCounters s i := by
  fin_cases i <;> rfl

lemma writeStatistics_latencies (code : Int) (ms : Nat)
    (s : bombardierStats) :
    (writeStatistics code ms s).latencies = ms ::ₘ s.latencies := by
  simp only [writeStatistics]
  split_ifs <;> rfl

lemma writeStatistics_statusCounters (code : Int) (ms : Nat)
    (s : bombardierStats) (i : Fin 6) :
    statusCounters (writeStatistics code ms s) i =
      (if i = specStatusBucket code then (statusCounters s i + 1) % U64
       else statusCounters s i) := by
  simp only [writeStatistics, specStatusBucket]
  split_ifs <;> fin_cases i <;> simp_all [statusCounters]

/-- Claim C3: for every request outcome, `performSingleRequest` records
the elapsed time in the latency histogram whether or not `client.do`
returned an error, and bumps exactly the one status counter selected by
`code / 100` (1-5 map to their class, every other quotient, including
the 0 of an errored request, maps to `others`). -/
theorem claimC3 (r : DoResult) (s : bombardierStats) (i : Fin 6) :
    (performSingleRequest r s).latencies = r.msTaken ::ₘ s.latencies ∧
    statusCounters (performSingleRequest r s) i =
      (if i = specStatusBucket r.code then (statusCounters s i + 1) % U64
       else statusCounters s i) := by
  obtain ⟨code, ms, err⟩ := r
  cases err with
  | none =>
    exact ⟨writeStatistics_latencies code ms s,
      writeStatistics_statusCounters code ms s i⟩
  | some e =>
    constructor
    · exact writeStatistics_latencies code ms
        { s with errors := e ::ₘ s.errors }
    · have h := writeStatistics_statusCounters code ms
        { s with errors := e ::ₘ s.errors } i
      rw [statusCounters_errors] at h
      exact h

/-! ### Claim theorems: completed() -/

/-- Claim C4: under the reachable-state side conditions — `total ≥ 1`
(enforced by config validation), `done ≤ total` (the worker discipline,
see `claimC1`), and, for the timed barrier, a positive duration with the
deadline task closing the channel no later than `duration` — every
`completed()` call returns a value in `[0, 1]`; it is `done/total`
(resp. `elapsed/duration`) while the channel is open and exactly 1 once
the done-signal is closed, whatever closed it.  The Go `float64` division
is modelled by exact rational division. -/
theorem claimC4 (c : countingCompletionBarrier) (t : timedCompletionBarrier)
    (elapsedNs : Int)
    (hc1 : 1 ≤ c.numReqs) (hc2 : c.reqsDone ≤ c.numReqs)
    (ht1 : 1 ≤ t.durationNs) (ht2 : 0 ≤ elapsedNs)
    (ht3 : t.doneChanClosed = false → elapsedNs ≤ t.durationNs) :
    (0 ≤ c.completed ∧ c.completed ≤ 1 ∧
      (c.doneChanClosed = true → c.completed = 1) ∧
      (c.doneChanClosed = false →
        c.completed = (c.reqsDone : ℚ) / (c.numReqs : ℚ))) ∧
    (0 ≤ t.completed elapsedNs ∧ t.completed elapsedNs ≤ 1 ∧
      (t.doneChanClosed = true → t.completed elapsedNs = 1) ∧
      (t.doneChanClosed = false →
        t.completed elapsedNs = (elapsedNs : ℚ) / (t.durationNs : ℚ))) := by
  constructor
  · have hpos : (0 : ℚ) < (c.numReqs : ℚ) := by
      exact_mod_cast Nat.lt_of_lt_of_le Nat.zero_lt_one hc1
    by_cases hdc : c.doneChanClosed = true
    · have h1 : c.completed = 1 := by
        unfold countingCompletionBarrier.completed; rw [if_pos hdc]
      exact ⟨by rw [h1]; norm_num, h1.le, fun _ => h1,
        fun hopen => absurd hdc (by simp [hopen])⟩
    · have h1 : c.completed = (c.reqsDone : ℚ) / (c.numReqs : ℚ) := by
        unfold countingCompletionBarrier.completed; rw [if_neg hdc]
      refine ⟨?_, ?_, fun hcl => absurd hcl hdc, fun _ => h1⟩
      · rw [h1]; positivity
      · rw [h1, div_le_one hpos]; exact_mod_cast hc2
  · have hpos : (0 : ℚ) < (t.durationNs : ℚ) := by
      exact_mod_cast lt_of_lt_of_le Int.zero_lt_one ht1
    by_cases hdc : t.doneChanClosed = true
    · have h1 : t.completed elapsedNs = 1 := by
        unfold timedCompletionBarrier.completed; rw [if_pos hdc]
      exact ⟨by rw [h1]; norm_num, h1.le, fun _ => h1,
        fun hopen => absurd hdc (by simp [hopen])⟩
    · have hb : t.doneChanClosed = false := by simpa using hdc
      have h1 : t.completed elapsedNs =
          (elapsedNs : ℚ) / (t.durationNs : ℚ) := by
        unfold timedCompletionBarrier.completed; rw [if_neg hdc]
      refine ⟨?_, ?_, fun hcl => absurd hcl hdc, fun _ => h1⟩
      · rw [h1]
        have he : (0 : ℚ) ≤ (elapsedNs : ℚ) := by exact_mod_cast ht2
        exact div_nonneg he hpos.le
      · rw [h1, div_le_one hpos]
        exact_mod_cast ht3 hb

/-- Claim C4 witness: a counted barrier at 2 of 4 requests reports 1/2,
and a timed barrier 500ms into a 1s run reports 1/2. -/
theorem claimC4_witness :
    countingCompletionBarrier.completed
      { numReqs := 4, reqsGrabbed := 2, reqsDone := 2,
        doneChanClosed := false, onceUsed := false, closeCount := 0,
        panicked := false } ≤ 1 ∧
    timedCompletionBarrier.completed
      { durationNs := 1000000000, doneChanClosed := false,
        onceUsed := false, closeCount := 0, panicked := false }
      500000000 ≤ 1 := by
  have h := claimC4
    { numReqs := 4, reqsGrabbed := 2, reqsDone := 2,
      doneChanClosed := false, onceUsed := false, closeCount := 0,
      panicked := false }
    { durationNs := 1000000000, doneChanClosed := false,
      onceUsed := false, closeCount := 0, panicked := false }
    500000000
    (by decide) (by decide) (by decide) (by decide)
    (fun _ => by decide)
  exact ⟨h.1.2.1, h.2.2.1⟩

/-! ### Claim theorems: once-guarded close -/

lemma cOnceInv_closeOnceDo (c : countingCompletionBarrier)
    (h : COnceInv c) : COnceInv c.closeOnceDo := by
  obtain ⟨h1, h2, h3⟩ := h
  unfold COnceInv countingCompletionBarrier.closeOnceDo
    countingCompletionBarrier.closeChan
  by_cases hdc : c.doneChanClosed = true <;> simp [h1, h2, h3, hdc]

lemma cOnceInv_jobDone (c : countingCompletionBarrier)
    (h : COnceInv c) : COnceInv c.jobDone := by
  unfold countingCompletionBarrier.jobDone
  dsimp only
  split
  · exact cOnceInv_closeOnceDo _ h
  · exact h

lemma cOnceInv_countedRun (ops : List countedOp)
    (c : countingCompletionBarrier) (h : COnceInv c) :
    COnceInv (countedRun c ops) := by
  induction ops generalizing c with
  | nil => exact h
  | cons op rest ih =>
    apply ih
    cases op with
    | jobDone => exact cOnceInv_jobDone _ h
    | cancel => exact cOnceInv_closeOnceDo _ h

lemma tOnceInv_closeOnceDo (t : timedCompletionBarrier)
    (h : TOnceInv t) : TOnceInv t.closeOnceDo := by
  obtain ⟨h1, h2, h3⟩ := h
  unfold TOnceInv timedCompletionBarrier.closeOnceDo
    timedCompletionBarrier.closeChan
  by_cases hdc : t.doneChanClosed = true <;> simp [h1, h2, h3, hdc]

lemma tOnceInv_timedRun (ops : List timedOp)
    (t : timedCompletionBarrier) (h : TOnceInv t) :
    TOnceInv (timedRun t ops) := by
  induction ops generalizing t with
  | nil => exact h
  | cons op rest ih =>
    apply ih
    cases op with
    | jobDone => exact h
    | cancel => exact tOnceInv_closeOnceDo _ h
    | deadline => exact tOnceInv_closeOnceDo _ h

/-- Claim C6: for any sequence of `Cancel` and `jobDone` calls (and, for
the timed barrier, deadline firings), in any order and multiplicity, the
done-channel is actually closed at most once and no call panics from a
double close: the close is once-guarded in both variants. -/
theorem claimC6 (K : Nat) (ops : List countedOp) (dNs : Int)
    (tops : List timedOp) :
    (countedRun (newCountingCompletionBarrier K) ops).closeCount ≤ 1 ∧
    (countedRun (newCountingCompletionBarrier K) ops).panicked = false ∧
    (timedRun (newTimedCompletionBarrier dNs) tops).closeCount ≤ 1 ∧
    (timedRun (newTimedCompletionBarrier dNs) tops).panicked = false := by
  have hc := cOnceInv_countedRun ops (newCountingCompletionBarrier K)
    ⟨rfl, rfl, rfl⟩
  have ht := tOnceInv_timedRun tops (newTimedCompletionBarrier dNs)
    ⟨rfl, rfl, rfl⟩
  obtain ⟨-, hc2, hc3⟩ := hc
  obtain ⟨-, ht2, ht3⟩ := ht
  refine ⟨?_, hc3, ?_, ht3⟩
  · rw [hc2]; split <;> norm_num
  · rw [ht2]; split <;> norm_num

/-! ### Claim theorems: configuration validation -/

lemma checkOrSetDefaultTestType_rate (c : Config) :
    c.checkOrSetDefaultTestType.rate = c.rate := by
  unfold Config.checkOrSetDefaultTestType; split <;> rfl

/-- Claim C8: a present rate equal to 0 makes `checkArgs` — and hence
`NewBombardier`, which runs it before doing anything else (workers are
only spawned later, in `Bombard`) — return an error, for every choice of
the external URL parser and method tables; a present rate ≥ 1 passes the
rate check. -/
theorem claimC8 (parse : String → Option UrlParts)
    (allowed canBody : String → Bool) (c : Config) (r : Nat) :
    (c.rate = some 0 →
      ∃ e, c.checkArgs parse allowed canBody = Except.error e ∧
        NewBombardierModel parse allowed canBody c = Except.error e) ∧
    (c.rate = some r → 1 ≤ r → c.checkRate = Except.ok ()) := by
  constructor
  · intro h0
    have hca : ∃ e, c.checkArgs parse allowed canBody = Except.error e := by
      simp only [Config.checkArgs]
      cases hu : (c.checkOrSetDefaultTestType).checkURL parse with
      | error e => exact ⟨e, by simp [hu]⟩
      | ok c1 =>
        have hc1rate : c1.rate = some 0 := by
          have h0b : (c.checkOrSetDefaultTestType).rate = some 0 := by
            rw [checkOrSetDefaultTestType_rate, h0]
          unfold Config.checkURL at hu
          cases hp : parse (c.checkOrSetDefaultTestType).url with
          | none => rw [hp] at hu; cases hu
          | some u =>
            rw [hp] at hu
            dsimp only at hu
            split at hu
            · cases hu
            · injection hu with hu1
              rw [← hu1]
              exact h0b
        have hcr : c1.checkRate = Except.error ConfigError.errZeroRate := by
          unfold Config.checkRate
          rw [hc1rate]
          simp
        exact ⟨ConfigError.errZeroRate, by simp [hu, hcr]⟩
    obtain ⟨e, he⟩ := hca
    refine ⟨e, he, ?_⟩
    unfold NewBombardierModel
    rw [he]
  · intro hr hge
    unfold Config.checkRate
    rw [hr]
    have hn : ¬ (r < 1) := by omega
    simp [hn]

/-- Claim C8 witness: a config with `rate = 0` is rejected (under an
always-succeeding URL parser), and `rate = 2` passes the rate check. -/
theorem claimC8_witness :
    (∃ e, Config.checkArgs
      (fun _ => some { scheme := "http", host := "h", full := "http://h" })
      (fun _ => true) (fun _ => true)
      { numConns := 1, numReqs := Option.none, durationNs := Option.none,
        url := "http://h", method := "GET", certPath := "", keyPath := "",
        body := "", bodyFilePath := "", timeoutNs := 0, rate := some 0 }
      = Except.error e) ∧
    Config.checkRate
      { numConns := 1, numReqs := Option.none, durationNs := Option.none,
        url := "http://h", method := "GET", certPath := "", keyPath := "",
        body := "", bodyFilePath := "", timeoutNs := 0, rate := some 2 }
      = Except.ok () := by
  constructor
  · obtain ⟨e, he, -⟩ := (claimC8
      (fun _ => some { scheme := "http", host := "h", full := "http://h" })
      (fun _ => true) (fun _ => true)
      { numConns := 1, numReqs := Option.none, durationNs := Option.none,
        url := "http://h", method := "GET", certPath := "", keyPath := "",
        body := "", bodyFilePath := "", timeoutNs := 0, rate := some 0 }
      1).1 rfl
    exact ⟨e, he⟩
  · exact (claimC8 (fun _ => Option.none) (fun _ => true) (fun _ => true)
      { numConns := 1, numReqs := Option.none, durationNs := Option.none,
        url := "http://h", method := "GET", certPath := "", keyPath := "",
        body := "", bodyFilePath := "", timeoutNs := 0, rate := some 2 }
      2).2 rfl (by omega)

/-- Claim C10: with both `NumReqs` and `Duration` set the run is counted
and the counting barrier is built from `NumReqs` with the duration
ignored; with neither set, `checkOrSetDefaultTestType` installs the
default test duration, making the run timed. -/
theorem claimC10 (c : Config) (k : Nat) (d : Int) :
    (c.numReqs = some k → c.durationNs = some d →
      c.testType = testTyp.counted ∧
      newBombardierBarrier c = some (barrierKind.counting k) ∧
      (∀ d2 : Option Int,
        newBombardierBarrier { c with durationNs := d2 } =
          some (barrierKind.counting k))) ∧
    (c.numReqs = Option.none → c.durationNs = Option.none →
      c.checkOrSetDefaultTestType.durationNs = some defaultTestDuration ∧
      c.checkOrSetDefaultTestType.testType = testTyp.timed) := by
  constructor
  · intro hn _hd
    have ht : c.testType = testTyp.counted := by
      unfold Config.testType
      rw [hn]
      simp
    refine ⟨ht, ?_, ?_⟩
    · unfold newBombardierBarrier
      rw [ht, hn]
      simp
    · intro d2
      have ht2 : ({ c with durationNs := d2 } : Config).testType =
          testTyp.counted := by
        unfold Config.testType
        rw [show ({ c with durationNs := d2 } : Config).numReqs = some k
          from hn]
        simp
      unfold newBombardierBarrier
      rw [ht2, show ({ c with durationNs := d2 } : Config).numReqs = some k
        from hn]
      simp
  · intro hn hd
    have ht : c.testType = testTyp.none := by
      unfold Config.testType
      rw [hn, hd]
      simp
    constructor
    · unfold Config.checkOrSetDefaultTestType
      rw [ht]
      simp
    · unfold Config.checkOrSetDefaultTestType
      rw [ht]
      simp only [if_pos rfl]
      unfold Config.testType
      rw [show ({ c with durationNs := some defaultTestDuration } :
        Config).numReqs = c.numReqs from rfl, hn]
      simp

/-- Claim C10 witness: a config with `numReqs = 7` and a 5s duration is
counted with a counting barrier of 7; one with neither gets the default
duration and is timed. -/
theorem claimC10_witness :
    newBombardierBarrier
      { numConns := 1, numReqs := some 7, durationNs := some 5000000000,
        url := "http://h", method := "GET", certPath := "", keyPath := "",
        body := "", bodyFilePath := "", timeoutNs := 0,
        rate := Option.none } = some (barrierKind.counting 7) ∧
    Config.testType (Config.checkOrSetDefaultTestType
      { numConns := 1, numReqs := Option.none, durationNs := Option.none,
        url := "http://h", method := "GET", certPath := "", keyPath := "",
        body := "", bodyFilePath := "", timeoutNs := 0,
        rate := Option.none }) = testTyp.timed := by
  constructor
  · exact ((claimC10
      { numConns := 1, numReqs := some 7, durationNs := some 5000000000,
        url := "http://h", method := "GET", certPath := "", keyPath := "",
        body := "", bodyFilePath := "", timeoutNs := 0,
        rate := Option.none } 7 5000000000).1 rfl rfl).2.1
  · exact ((claimC10
      { numConns := 1, numReqs := Option.none, durationNs := Option.none,
        url := "http://h", method := "GET", certPath := "", keyPath := "",
        body := "", bodyFilePath := "", timeoutNs := 0,
        rate := Option.none } 7 0).2 rfl rfl).2

/-! ### Claim theorems: header list -/

lemma splitN2Colon_go_no_colon (s : List Char) (h : (':') ∉ s) :
    ∀ acc, splitN2Colon.go acc s = [acc.reverse ++ s] := by
  induction s with
  | nil => intro acc; simp [splitN2Colon.go]
  | cons ch rest ih =>
    intro acc
    have h1 : (':' : Char) ≠ ch := fun he => h (he ▸ List.mem_cons_self ch rest)
    have h2 : (':') ∉ rest := fun hm => h (List.mem_cons_of_mem ch hm)
    have hne : ¬ (ch = ':') := fun hr => h1 hr.symm
    rw [show splitN2Colon.go acc (ch :: rest) =
      (if ch = ':' then [acc.reverse, rest]
       else splitN2Colon.go (ch :: acc) rest) from rfl]
    rw [if_neg hne, ih h2 (ch :: acc)]
    simp

lemma splitN2Colon_go_colon (s : List Char) (h : (':') ∈ s) :
    ∀ acc, ∃ pre post, s = pre ++ ':' :: post ∧ (':') ∉ pre ∧
      splitN2Colon.go acc s = [acc.reverse ++ pre, post] := by
  induction s with
  | nil => cases h
  | cons ch rest ih =>
    intro acc
    by_cases hc : ch = ':'
    · subst hc
      exact ⟨[], rest, by simp, by simp, by
        rw [show splitN2Colon.go acc (':' :: rest) =
          (if (':' : Char) = ':' then [acc.reverse, rest]
           else splitN2Colon.go (':' :: acc) rest) from rfl]
        simp⟩
    · have hrest : (':') ∈ rest := by
        rcases List.mem_cons.mp h with h1 | h1
        · exact absurd h1.symm hc
        · exact h1
      obtain ⟨pre, post, hs, hpre, hgo⟩ := ih hrest (ch :: acc)
      refine ⟨ch :: pre, post, by simp [hs], ?_, ?_⟩
      · intro hmem
        rcases List.mem_cons.mp hmem with h1 | h1
        · exact hc h1.symm
        · exact hpre h1
      · rw [show splitN2Colon.go acc (ch :: rest) =
          (if ch = ':' then [acc.reverse, rest]
           else splitN2Colon.go (ch :: acc) rest) from rfl]
        rw [if_neg hc, hgo]
        simp

/-- Claim C9: a `HeadersList.Set` call whose input contains a colon
appends exactly one header at the end of the list — the key is the text
before the first colon, unchanged, and the value is the text after it
with surrounding spaces trimmed — so repeated calls preserve order and
duplicates; an input with no colon yields `errInvalidHeaderFormat` and
leaves the list unchanged. -/
theorem claimC9 (h : HeadersList) (s : List Char) :
    ((':') ∈ s → ∃ pre post, s = pre ++ ':' :: post ∧ (':') ∉ pre ∧
      HeadersList.Set h s =
        Except.ok (h ++ [{ key := pre, value := trimSpaces post }])) ∧
    ((':') ∉ s → HeadersList.Set h s =
      Except.error HeaderError.errInvalidHeaderFormat) := by
  constructor
  · intro hmem
    obtain ⟨pre, post, hs, hpre, hgo⟩ := splitN2Colon_go_colon s hmem []
    refine ⟨pre, post, hs, hpre, ?_⟩
    have hsplit : splitN2Colon s = [pre, post] := by
      unfold splitN2Colon
      simpa using hgo
    unfold HeadersList.Set
    rw [hsplit]
  · intro hmem
    have hsplit : splitN2Colon s = [s] := by
      unfold splitN2Colon
      simpa using splitN2Colon_go_no_colon s hmem []
    unfold HeadersList.Set
    rw [hsplit]

/-- Claim C9 witness: setting `"K: v "` on an empty list appends the
header `(K, v)`; `"no colon"` is rejected. -/
theorem claimC9_witness :
    HeadersList.Set [] [ 'K', ':', ' ', 'v', ' ' ] =
      Except.ok [{ key := ['K'], value := ['v'] }] ∧
    HeadersList.Set [] [ 'n', 'o' ] =
      Except.error HeaderError.errInvalidHeaderFormat := by
  have h2 := (claimC9 [] [ 'n', 'o' ]).2 (by decide)
  have h1 := (claimC9 [] [ 'K', ':', ' ', 'v', ' ' ]).1 (by decide)
  exact ⟨by rfl, h2⟩

/-! ### Claim C1: counting lemmas and pool invariants -/

lemma countP_set_eq {α : Type} (q : α → Bool) (l : List α) (i : Nat)
    (a b : α) (h : l[i]? = some a) :
    (l.set i b).countP q + (if q a then 1 else 0) =
      l.countP q + (if q b then 1 else 0) := by
  induction l generalizing i with
  | nil => simp at h
  | cons x xs ih =>
    cases i with
    | zero =>
      rw [List.getElem?_cons_zero] at h
      injection h with h
      subst h
      show (b :: xs).countP q + _ = (x :: xs).countP q + _
      rw [List.countP_cons, List.countP_cons]
      by_cases hb : q b <;> by_cases hx : q x <;> simp [hb, hx]
    | succ n =>
      rw [List.getElem?_cons_succ] at h
      have ih2 := ih n h
      show (x :: xs.set n b).countP q + _ = (x :: xs).countP q + _
      rw [List.countP_cons, List.countP_cons]
      by_cases hx : q x <;> simp [hx] <;> omega

lemma countWSt_set (s a b : WSt) (ws : List WSt) (i : Nat)
    (h : ws[i]? = some a) :
    countWSt s (ws.set i b) + (if a = s then 1 else 0) =
      countWSt s ws + (if b = s then 1 else 0) := by
  have hc := countP_set_eq (fun w => decide (w = s)) ws i a b h
  simpa [countWSt] using hc

lemma mem_of_getElem?_list {α : Type} {l : List α} {i : Nat} {a : α}
    (h : l[i]? = some a) : a ∈ l := by
  induction l generalizing i with
  | nil => simp at h
  | cons x xs ih =>
    cases i with
    | zero =>
      rw [List.getElem?_cons_zero] at h
      injection h with h
      subst h
      exact List.mem_cons_self x xs
    | succ n =>
      rw [List.getElem?_cons_succ] at h
      exact List.mem_cons_of_mem x (ih h)

lemma countWSt_lt_length {ws : List WSt} {i : Nat} {a : WSt}
    (h : ws[i]? = some a) (hne : ¬ (a = WSt.exited)) :
    countWSt WSt.exited ws < ws.length := by
  have hmem : a ∈ ws := mem_of_getElem?_list h
  refine Nat.lt_of_le_of_ne (List.countP_le_length _) fun hc => ?_
  have hall := List.countP_eq_length.mp hc a hmem
  simp at hall
  exact hne hall

lemma countWSt_pos {ws : List WSt} {i : Nat} {a : WSt}
    (h : ws[i]? = some a) : 1 ≤ countWSt a ws := by
  have hmem : a ∈ ws := mem_of_getElem?_list h
  have : 0 < ws.countP (fun w => decide (w = a)) :=
    List.countP_pos_iff.mpr ⟨a, hmem, by simp⟩
  simpa [countWSt] using this

lemma poolInv_init (K N : Nat) : PoolInv K N (initPool K N) := by
  refine ⟨by simp [initPool], rfl, Nat.le_refl 0, Nat.zero_le K, ?_⟩
  simp [initPool, newCountingCompletionBarrier]

lemma poolInv_pstep {K N : Nat} (hKN : K + N < U64) {p : Pool}
    (hp : PoolInv K N p) (e : Ev) : PoolInv K N (pstep p e) := by
  obtain ⟨hlen, hnum, hig, hiK, hgb⟩ := hp
  cases e with
  | cancel =>
    refine ⟨hlen, ?_, ?_, hiK, ?_⟩
    · show p.bar.Cancel.numReqs = K
      simpa using hnum
    · show p.issued ≤ p.bar.Cancel.reqsGrabbed
      simpa using hig
    · show p.bar.Cancel.reqsGrabbed ≤ p.issued + countWSt WSt.exited p.ws
      simpa using hgb
  | brk i =>
    show PoolInv K N (match p.ws[i]? with
      | some WSt.atWork => { p with ws := p.ws.set i WSt.exited }
      | _ => p)
    cases hwi : p.ws[i]? with
    | none => exact ⟨hlen, hnum, hig, hiK, hgb⟩
    | some w =>
      cases w with
      | atLoop => exact ⟨hlen, hnum, hig, hiK, hgb⟩
      | exited => exact ⟨hlen, hnum, hig, hiK, hgb⟩
      | atWork =>
        have hcs := countWSt_set WSt.exited WSt.atWork WSt.exited p.ws i hwi
        simp at hcs
        exact ⟨by simpa using hlen, hnum, hig, hiK, by dsimp only; omega⟩
  | work i =>
    show PoolInv K N (match p.ws[i]? with
      | some WSt.atWork =>
        { p with bar := p.bar.jobDone, ws := p.ws.set i WSt.atLoop,
                 doCalls := p.doCalls + 1 }
      | _ => p)
    cases hwi : p.ws[i]? with
    | none => exact ⟨hlen, hnum, hig, hiK, hgb⟩
    | some w =>
      cases w with
      | atLoop => exact ⟨hlen, hnum, hig, hiK, hgb⟩
      | exited => exact ⟨hlen, hnum, hig, hiK, hgb⟩
      | atWork =>
        have hcs := countWSt_set WSt.exited WSt.atWork WSt.atLoop p.ws i hwi
        simp at hcs
        refine ⟨by simpa using hlen, by simpa using hnum,
          by simpa using hig, hiK, ?_⟩
        show p.bar.jobDone.reqsGrabbed ≤ _
        rw [jobDone_reqsGrabbed]
        dsimp only
        omega
  | grab i =>
    show PoolInv K N (match p.ws[i]? with
      | some WSt.atLoop =>
        let r := p.bar.tryGrabWork
        if r.1 then
          { p with bar := r.2, ws := p.ws.set i WSt.atWork,
                   issued := p.issued + 1 }
        else { p with bar := r.2, ws := p.ws.set i WSt.exited }
      | _ => p)
    cases hwi : p.ws[i]? with
    | none => exact ⟨hlen, hnum, hig, hiK, hgb⟩
    | some w =>
      cases w with
      | atWork => exact ⟨hlen, hnum, hig, hiK, hgb⟩
      | exited => exact ⟨hlen, hnum, hig, hiK, hgb⟩
      | atLoop =>
        by_cases hdc : p.bar.doneChanClosed = true
        · have htr : p.bar.tryGrabWork = (false, p.bar) := by
            unfold countingCompletionBarrier.tryGrabWork
            rw [if_pos hdc]
          have hcs := countWSt_set WSt.exited WSt.atLoop WSt.exited p.ws i hwi
          simp at hcs
          dsimp only
          rw [htr]
          dsimp only
          simp only [Bool.false_eq_true, if_false]
          refine ⟨by simpa using hlen, hnum, hig, hiK, ?_⟩
          dsimp only
          omega
        · have hex := countWSt_lt_length hwi (by simp)
          have hnw : p.bar.reqsGrabbed + 1 < U64 := by
            rw [hlen] at hex
            omega
          have htr1 : p.bar.tryGrabWork.1 =
              decide (p.bar.reqsGrabbed + 1 ≤ p.bar.numReqs) := by
            unfold countingCompletionBarrier.tryGrabWork
            rw [if_neg hdc]
            dsimp only
            rw [Nat.mod_eq_of_lt hnw]
          have htr2 : p.bar.tryGrabWork.2 =
              { p.bar with reqsGrabbed := p.bar.reqsGrabbed + 1 } := by
            unfold countingCompletionBarrier.tryGrabWork
            rw [if_neg hdc]
            dsimp only
            rw [Nat.mod_eq_of_lt hnw]
          dsimp only
          rw [htr1, htr2]
          by_cases hok : p.bar.reqsGrabbed + 1 ≤ p.bar.numReqs
          · rw [if_pos (by simpa using hok)]
            have hcs := countWSt_set WSt.exited WSt.atLoop WSt.atWork p.ws i hwi
            simp at hcs
            refine ⟨by simpa using hlen, by simpa using hnum, ?_, ?_, ?_⟩ <;>
              dsimp only <;> omega
          · rw [if_neg (by simpa using hok)]
            have hcs := countWSt_set WSt.exited WSt.atLoop WSt.exited p.ws i hwi
            simp at hcs
            refine ⟨by simpa using hlen, by simpa using hnum, ?_, ?_, ?_⟩ <;>
              dsimp only <;> omega

lemma poolInv_prun {K N : Nat} (hKN : K + N < U64) (evs : List Ev)
    {p : Pool} (hp : PoolInv K N p) : PoolInv K N (prun p evs) := by
  induction evs generalizing p with
  | nil => exact hp
  | cons e rest ih => exact ih (poolInv_pstep hKN hp e)

lemma jobDone_close_of_eq (c : countingCompletionBarrier)
    (honce : c.onceUsed = c.doneChanClosed)
    (heq : (c.reqsDone + 1) % U64 = c.numReqs) :
    c.jobDone.doneChanClosed = true ∧ c.jobDone.onceUsed = true := by
  have hs := closeOnceDo_spec
    { c with reqsDone := (c.reqsDone + 1) % U64 } honce
  rw [heq] at hs
  simp only [countingCompletionBarrier.jobDone, heq, if_pos]
  exact ⟨hs.1, hs.2.1⟩

lemma jobDone_nochange_of_ne (c : countingCompletionBarrier)
    (hne : (c.reqsDone + 1) % U64 ≠ c.numReqs) :
    c.jobDone.doneChanClosed = c.doneChanClosed ∧
    c.jobDone.onceUsed = c.onceUsed := by
  simp only [countingCompletionBarrier.jobDone, hne]
  exact ⟨rfl, rfl⟩

lemma countWSt_replicate_ne (s a : WSt) (n : Nat) (h : ¬ (a = s)) :
    countWSt s (List.replicate n a) = 0 := by
  unfold countWSt
  rw [List.countP_eq_zero]
  intro x hx
  rw [List.eq_of_mem_replicate hx]
  simpa using h

lemma poolInvB_init (K N : Nat) : PoolInvB K N (initPool K N) := by
  refine ⟨poolInv_init K N, ?_, rfl, rfl, ?_, ?_, ?_⟩
  · show (0 : Nat) + countWSt WSt.atWork (List.replicate N WSt.atLoop) = 0
    rw [countWSt_replicate_ne _ _ _ (by simp)]
  · intro h
    simp [initPool, newCountingCompletionBarrier] at h
  · intro _
    show (0 : Nat) = min 0 K
    simp
  · intro _ hx
    rw [show countWSt WSt.exited (initPool K N).ws = 0 from
      countWSt_replicate_ne _ _ _ (by simp)] at hx
    omega

lemma poolInvB_pstep {K N : Nat} (hKN : K + N < U64) {p : Pool}
    (hp : PoolInvB K N p) (e : Ev)
    (hnc : e.isCancel = false) (hnb : e.isBrk = false) :
    PoolInvB K N (pstep p e) := by
  have hbase := poolInv_pstep hKN hp.base e
  obtain ⟨⟨hlen, hnum, hig, hiK, hgb⟩, hda, hdo, honce, hclosed, hopen,
    hexitg⟩ := hp
  cases e with
  | cancel => simp [Ev.isCancel] at hnc
  | brk i => simp [Ev.isBrk] at hnb
  | grab i =>
    cases hwi : p.ws[i]? with
    | none =>
      have heq : pstep p (Ev.grab i) = p := by simp [pstep, hwi]
      rw [heq] at hbase ⊢
      exact ⟨hbase, hda, hdo, honce, hclosed, hopen, hexitg⟩
    | some w =>
      cases w with
      | atWork =>
        have heq : pstep p (Ev.grab i) = p := by simp [pstep, hwi]
        rw [heq] at hbase ⊢
        exact ⟨hbase, hda, hdo, honce, hclosed, hopen, hexitg⟩
      | exited =>
        have heq : pstep p (Ev.grab i) = p := by simp [pstep, hwi]
        rw [heq] at hbase ⊢
        exact ⟨hbase, hda, hdo, honce, hclosed, hopen, hexitg⟩
      | atLoop =>
        by_cases hdc : p.bar.doneChanClosed = true
        · have htr : p.bar.tryGrabWork = (false, p.bar) := by
            unfold countingCompletionBarrier.tryGrabWork
            rw [if_pos hdc]
          have heq : pstep p (Ev.grab i) =
              { p with ws := p.ws.set i WSt.exited } := by
            simp only [pstep, hwi]
            rw [htr]
            simp
          have hcsW := countWSt_set WSt.atWork WSt.atLoop WSt.exited p.ws i hwi
          simp at hcsW
          rw [heq] at hbase ⊢
          refine ⟨hbase, ?_, hdo, honce, hclosed, ?_, ?_⟩
          · dsimp only
            omega
          · intro h
            exact absurd h (by simp [hdc])
          · intro h
            exact absurd h (by simp [hdc])
        · have hex := countWSt_lt_length hwi (by simp)
          have hnw : p.bar.reqsGrabbed + 1 < U64 := by
            rw [hlen] at hex
            omega
          have htr1 : p.bar.tryGrabWork.1 =
              decide (p.bar.reqsGrabbed + 1 ≤ p.bar.numReqs) := by
            unfold countingCompletionBarrier.tryGrabWork
            rw [if_neg hdc]
            dsimp only
            rw [Nat.mod_eq_of_lt hnw]
          have htr2 : p.bar.tryGrabWork.2 =
              { p.bar with reqsGrabbed := p.bar.reqsGrabbed + 1 } := by
            unfold countingCompletionBarrier.tryGrabWork
            rw [if_neg hdc]
            dsimp only
            rw [Nat.mod_eq_of_lt hnw]
          have hdcf : p.bar.doneChanClosed = false := by simpa using hdc
          by_cases hok : p.bar.reqsGrabbed + 1 ≤ p.bar.numReqs
          · have heq : pstep p (Ev.grab i) =
                { p with
                  bar := { p.bar with
                           reqsGrabbed := p.bar.reqsGrabbed + 1 },
                  ws := p.ws.set i WSt.atWork,
                  issued := p.issued + 1 } := by
              simp only [pstep, hwi]
              rw [htr1, htr2, if_pos (by simpa using hok)]
            have hcsW := countWSt_set WSt.atWork WSt.atLoop WSt.atWork p.ws i hwi
            simp at hcsW
            have hcsE := countWSt_set WSt.exited WSt.atLoop WSt.atWork p.ws i hwi
            simp at hcsE
            have hio := hopen hdcf
            rw [heq] at hbase ⊢
            refine ⟨hbase, ?_, hdo, honce, ?_, ?_, ?_⟩
            · dsimp only
              omega
            · intro h
              exact absurd h (by simp [hdcf])
            · intro _
              dsimp only
              omega
            · intro h hx
              dsimp only at hx ⊢
              have := hexitg hdcf (by omega)
              omega
          · have heq : pstep p (Ev.grab i) =
                { p with
                  bar := { p.bar with
                           reqsGrabbed := p.bar.reqsGrabbed + 1 },
                  ws := p.ws.set i WSt.exited } := by
              simp only [pstep, hwi]
              rw [htr1, htr2, if_neg (by simpa using hok)]
            have hcsW := countWSt_set WSt.atWork WSt.atLoop WSt.exited p.ws i hwi
            simp at hcsW
            have hio := hopen hdcf
            rw [heq] at hbase ⊢
            refine ⟨hbase, ?_, hdo, honce, ?_, ?_, ?_⟩
            · dsimp only
              omega
            · intro h
              exact absurd h (by simp [hdcf])
            · intro _
              dsimp only
              omega
            · intro _ _
              dsimp only
              omega
  | work i =>
    cases hwi : p.ws[i]? with
    | none =>
      have heq : pstep p (Ev.work i) = p := by simp [pstep, hwi]
      rw [heq] at hbase ⊢
      exact ⟨hbase, hda, hdo, honce, hclosed, hopen, hexitg⟩
    | some w =>
      cases w with
      | atLoop =>
        have heq : pstep p (Ev.work i) = p := by simp [pstep, hwi]
        rw [heq] at hbase ⊢
        exact ⟨hbase, hda, hdo, honce, hclosed, hopen, hexitg⟩
      | exited =>
        have heq : pstep p (Ev.work i) = p := by simp [pstep, hwi]
        rw [heq] at hbase ⊢
        exact ⟨hbase, hda, hdo, honce, hclosed, hopen, hexitg⟩
      | atWork =>
        have heq : pstep p (Ev.work i) =
            { p with bar := p.bar.jobDone, ws := p.ws.set i WSt.atLoop,
                     doCalls := p.doCalls + 1 } := by
          simp [pstep, hwi]
        have hAW1 : 1 ≤ countWSt WSt.atWork p.ws := countWSt_pos hwi
        have hdlt : p.bar.reqsDone + 1 < U64 := by omega
        have hmod : (p.bar.reqsDone + 1) % U64 = p.bar.reqsDone + 1 :=
          Nat.mod_eq_of_lt hdlt
        have hcsW := countWSt_set WSt.atWork WSt.atWork WSt.atLoop p.ws i hwi
        simp at hcsW
        have hcsE := countWSt_set WSt.exited WSt.atWork WSt.atLoop p.ws i hwi
        simp at hcsE
        rw [heq] at hbase ⊢
        by_cases hEq : p.bar.reqsDone + 1 = p.bar.numReqs
        · have hcl := jobDone_close_of_eq p.bar honce (by rw [hmod]; exact hEq)
          refine ⟨hbase, ?_, ?_, ?_, ?_, ?_, ?_⟩
          · dsimp only
            rw [jobDone_reqsDone, hmod]
            omega
          · dsimp only
            rw [jobDone_reqsDone, hmod]
            omega
          · dsimp only
            rw [hcl.1, hcl.2]
          · intro _
            refine ⟨by dsimp only; omega, ?_⟩
            dsimp only
            rw [jobDone_reqsDone, hmod]
            omega
          · intro h
            dsimp only at h
            rw [hcl.1] at h
            exact absurd h (by simp)
          · intro h _
            dsimp only at h
            rw [hcl.1] at h
            exact absurd h (by simp)
        · have hdc : p.bar.doneChanClosed = false := by
            by_cases hb : p.bar.doneChanClosed = true
            · obtain ⟨hi, hd⟩ := hclosed hb
              exfalso
              omega
            · simpa using hb
          have hnc2 := jobDone_nochange_of_ne p.bar (by rw [hmod]; exact hEq)
          refine ⟨hbase, ?_, ?_, ?_, ?_, ?_, ?_⟩
          · dsimp only
            rw [jobDone_reqsDone, hmod]
            omega
          · dsimp only
            rw [jobDone_reqsDone, hmod]
            omega
          · dsimp only
            rw [hnc2.1, hnc2.2]
            exact honce
          · intro h
            dsimp only at h
            rw [hnc2.1] at h
            exact absurd h (by simp [hdc])
          · intro _
            dsimp only
            rw [jobDone_reqsGrabbed]
            exact hopen hdc
          · intro _ hx
            dsimp only at hx ⊢
            rw [jobDone_reqsGrabbed]
            exact hexitg hdc (by omega)

lemma poolInvB_prun {K N : Nat} (hKN : K + N < U64) (evs : List Ev)
    {p : Pool} (hp : PoolInvB K N p)
    (hnc : ∀ e ∈ evs, e.isCancel = false)
    (hnb : ∀ e ∈ evs, e.isBrk = false) :
    PoolInvB K N (prun p evs) := by
  induction evs generalizing p with
  | nil => exact hp
  | cons e rest ih =>
    exact ih
      (poolInvB_pstep hKN hp e (hnc e (List.mem_cons_self e rest))
        (hnb e (List.mem_cons_self e rest)))
      (fun x hx => hnc x (List.mem_cons_of_mem e hx))
      (fun x hx => hnb x (List.mem_cons_of_mem e hx))

/-- Claim C1: for a counted run with `num_reqs = K` (with
`K + NumConns` below the uint64 wrap, as every configuration in the
stated range `K ≤ 10^5`, `N ≤ 1000` is), across any interleaving
of any number of workers, at most K `tryGrabWork` calls return true; and
in any completed run (all worker loops terminated) with at least one
worker, no cancellation and no limiter BREAK, `tryGrabWork` returns true
exactly K times and exactly K `client.do` calls are made. -/
theorem claimC1 (K N : Nat) (evs : List Ev) (hKN : K + N < U64) :
    (prun (initPool K N) evs).issued ≤ K ∧
    (1 ≤ N →
      (∀ e ∈ evs, e.isCancel = false) →
      (∀ e ∈ evs, e.isBrk = false) →
      allExited (prun (initPool K N) evs) →
      (prun (initPool K N) evs).issued = K ∧
      (prun (initPool K N) evs).doCalls = K) := by
  have hA := poolInv_prun hKN evs (poolInv_init K N)
  refine ⟨hA.h_iK, ?_⟩
  intro hN hnc hnb hex
  have hB := poolInvB_prun hKN evs (poolInvB_init K N) hnc hnb
  obtain ⟨⟨hlen, hnum, hig, hiK, hgb⟩, hda, hdo, honce, hclosed, hopen,
    hexitg⟩ := hB
  have hAW : countWSt WSt.atWork (prun (initPool K N) evs).ws = 0 := by
    unfold countWSt
    rw [List.countP_eq_zero]
    intro a ha
    rw [hex a ha]
    simp
  by_cases hdc : (prun (initPool K N) evs).bar.doneChanClosed = true
  · obtain ⟨hi, hd⟩ := hclosed hdc
    exact ⟨hi, by omega⟩
  · have hdcf : (prun (initPool K N) evs).bar.doneChanClosed = false := by
      simpa using hdc
    have hio := hopen hdcf
    have hne : (prun (initPool K N) evs).ws ≠ [] := by
      intro h0
      rw [h0] at hlen
      simp at hlen
      omega
    obtain ⟨w, hw⟩ := List.exists_mem_of_ne_nil _ hne
    have hwex : WSt.exited ∈ (prun (initPool K N) evs).ws := by
      rw [← hex w hw]
      exact hw
    have hex1 : 1 ≤ countWSt WSt.exited (prun (initPool K N) evs).ws := by
      have : 0 < (prun (initPool K N) evs).ws.countP
          (fun x => decide (x = WSt.exited)) :=
        List.countP_pos_iff.mpr ⟨WSt.exited, hwex, by simp⟩
      simpa [countWSt] using this
    have hKg := hexitg hdcf hex1
    exact ⟨by omega, by omega⟩

/-- Claim C1 witness: two workers against `K = 2` complete the run with
exactly 2 successful grabs and 2 requests. -/
theorem claimC1_witness :
    (prun (initPool 2 2)
      [Ev.grab 0, Ev.work 0, Ev.grab 1, Ev.work 1,
       Ev.grab 0, Ev.grab 1]).issued ≤ 2 ∧
    (prun (initPool 2 2)
      [Ev.grab 0, Ev.work 0, Ev.grab 1, Ev.work 1,
       Ev.grab 0, Ev.grab 1]).issued = 2 ∧
    (prun (initPool 2 2)
      [Ev.grab 0, Ev.work 0, Ev.grab 1, Ev.work 1,
       Ev.grab 0, Ev.grab 1]).doCalls = 2 := by
  have h := claimC1 2 2
    [Ev.grab 0, Ev.work 0, Ev.grab 1, Ev.work 1, Ev.grab 0, Ev.grab 1]
    (by decide)
  have h2 := h.2 (by decide) (by decide) (by decide) (by decide)
  exact ⟨h.1, h2.1, h2.2⟩

end Bombardier
